import Mathlib

/-!
Verification of the libsigrokdecode decoders `pwm` (Duty-Cycle Machine) and
`ir_irmp` (Framed-Symbol Machine) against their natural-language specification.

The Python decoders are shallowly embedded:
* sample positions are natural numbers, Python's arbitrary-precision signed
  integer arithmetic on them is carried out in `ℤ`;
* Python floats are modelled as exact rationals (`ℚ`), matching the spec's
  "within floating-point tolerance" reading;
* `int(x)` (truncation toward zero) is `pyInt`, `bytes([x])` (which raises
  `ValueError` outside `[0, 255]`) is `bytesOf`;
* a decode run that raises an exception is modelled by an aborted result that
  keeps the outputs emitted before the raise.
-/

/-- Python `int(float)`: truncation toward zero of an exact rational. -/
def pyInt (q : ℚ) : ℤ := Int.tdiv q.num (q.den : ℤ)

/-- Rounding to nearest (ties away from zero, for nonnegative inputs) used to
model C `printf` fixed-point formatting of `'%f' % x` and `'%.1f' % x`; all
values formatted by the claims are exact at the printed precision, so the tie
rule is immaterial. -/
def pyRound (q : ℚ) : ℤ := Int.tdiv (2 * q.num + (q.den : ℤ)) (2 * (q.den : ℤ))

/-- Left-pad a string with zeros to `k` characters. -/
def padZeros (k : Nat) (s : String) : String :=
  String.mk (List.replicate (k - s.length) '0') ++ s

/-- Model of Python `'%f' % q`: six decimal places. -/
def fmt6 (q : ℚ) : String :=
  let n : ℤ := pyRound (q * 1000000)
  toString (n / 1000000) ++ "." ++ padZeros 6 (toString (n % 1000000).toNat)

/-- Model of Python `'%.1f' % q`: one decimal place. -/
def fmt1 (q : ℚ) : String :=
  let n : ℤ := pyRound (q * 10)
  toString (n / 10) ++ "." ++ toString (n % 10).toNat

/-- Python `bytes([i])`: a single byte, `ValueError` (`none`) outside
`[0, 255]`. -/
def bytesOf (i : ℤ) : Option Nat :=
  if 0 ≤ i ∧ i < 256 then some i.toNat else none

/-- One record put on an output stream by a decoder:
`put(ss, es, out_ann, [cls, txts])`, `put(ss, es, out_binary, [0, bytes])` or
`put(ss, es, out_average, value)` (pwm/pd.py, ir_irmp/pd.py). -/
inductive Output where
  | ann (ss es : Nat) (cls : Nat) (txts : List String)
  | bin (ss es : Nat) (payload : Nat)
  | meta (ss es : Nat) (value : ℚ)
deriving DecidableEq

/-- Decoder.putp of pwm/pd.py: render a period, in seconds, with an
auto-scaled time unit (the source literals `1e-12`, `1e-9`, `1e-6`, `1e-3`
and the matching multipliers `1e15` … `1e3` are written as exact rationals). -/
def putpText (period_t : ℚ) : String :=
  if period_t = 0 ∨ 1 ≤ period_t then fmt1 period_t ++ " s"
  else if period_t ≤ 1 / 1000000000000 then fmt1 (period_t * 1000000000000000) ++ " fs"
  else if period_t ≤ 1 / 1000000000 then fmt1 (period_t * 1000000000000) ++ " ps"
  else if period_t ≤ 1 / 1000000 then fmt1 (period_t * 1000000000) ++ " ns"
  else if period_t ≤ 1 / 1000 then fmt1 (period_t * 1000000) ++ " μs"
  else fmt1 (period_t * 1000) ++ " ms"

/-- An edge returned by `self.wait({0: 'e'})`: the sample number at which the
condition was met and the channel value at that instant. -/
structure Edge where
  samplenum : Nat
  pin : Nat
deriving DecidableEq

/-- The mutable state of the pwm Decoder between edge wake-ups
(pwm/pd.py `__init__` and `decode`). -/
structure PwmState where
  first_samplenum : Nat
  start_samplenum : Nat
  end_samplenum : Option Nat
  ss_block : Option Nat
  es_block : Option Nat
  num_cycles : Nat
  average : ℚ
deriving DecidableEq

/-- One iteration of the pwm `decode` main loop (pwm/pd.py lines 104-139) on
the edge returned by `wait`.  Returns the outputs emitted during the
iteration and `some` updated state, or `none` when the Python code would
raise (subtracting the unset `end_samplenum`, dividing by a zero period,
`bytes([...])` out of range, or using a missing/zero sample rate); the raise
aborts the run but the outputs already emitted stand. -/
def pwmStep (samplerate : Option ℚ) (startedge : Nat) (st : PwmState) (e : Edge) :
    List Output × Option PwmState :=
  if e.pin = startedge then
    match st.end_samplenum with
    | none => ([], none)
    | some endS =>
      let period : ℤ := (e.samplenum : ℤ) - (st.start_samplenum : ℤ)
      let duty : ℤ := (endS : ℤ) - (st.start_samplenum : ℤ)
      if period = 0 then ([], none)
      else
        let ratio : ℚ := (duty : ℚ) / (period : ℚ)
        let ssb := st.start_samplenum
        let esb := e.samplenum
        let percent : ℚ := ratio * 100
        let o1 := Output.ann ssb esb 0 [fmt6 percent ++ "%"]
        match bytesOf (pyInt (ratio * 256)) with
        | none => ([o1], none)
        | some b =>
          let o2 := Output.bin st.num_cycles st.num_cycles b
          match samplerate with
          | none => ([o1, o2], none)
          | some r =>
            if r = 0 then ([o1, o2], none)
            else
              let o3 := Output.ann ssb esb 1 [putpText ((period : ℚ) / r)]
              let nc := st.num_cycles + 1
              let avg := st.average + percent
              let o4 := Output.meta st.first_samplenum esb (avg / (nc : ℚ))
              ([o1, o2, o3, o4],
               some { first_samplenum := st.first_samplenum,
                      start_samplenum := e.samplenum,
                      end_samplenum := some endS,
                      ss_block := some ssb, es_block := some esb,
                      num_cycles := nc, average := avg })
  else
    ([], some { st with end_samplenum := some e.samplenum,
                        ss_block := some e.samplenum })

/-- The pwm main loop over the remaining edges.  The second component is
`some` final state on clean stream exhaustion and `none` when an iteration
raised. -/
def pwmLoop (samplerate : Option ℚ) (startedge : Nat) :
    PwmState → List Edge → List Output × Option PwmState
  | st, [] => ([], some st)
  | st, e :: es =>
    match pwmStep samplerate startedge st e with
    | (outs, none) => (outs, none)
    | (outs, some st') =>
      let rest := pwmLoop samplerate startedge st' es
      (outs ++ rest.1, rest.2)

/-- The initial edge handling of pwm `decode` (lines 96-101): take the first
edge; if its value is not the configured start edge, take one more edge
(without re-checking it) and begin measurement there.  Returns the sample
number of the adopted first start edge and the edges still to process, or
`none` when the stream is exhausted during this phase (a clean stop). -/
def pwmInitEdges (startedge : Nat) (edges : List Edge) : Option (Nat × List Edge) :=
  match edges with
  | [] => none
  | e0 :: rest =>
    if e0.pin = startedge then some (e0.samplenum, rest)
    else
      match rest with
      | [] => none
      | e1 :: rest' => some (e1.samplenum, rest')

/-- The decoder state right after the initial edge handling: both
`first_samplenum` and `start_samplenum` hold the adopted first edge. -/
def initPwmState (s : Nat) : PwmState :=
  { first_samplenum := s, start_samplenum := s, end_samplenum := none,
    ss_block := none, es_block := none, num_cycles := 0, average := 0 }

/-- A whole pwm `decode` run over a finite edge stream: the emitted outputs
and `true` for a clean end-of-stream stop, `false` when the run aborted with
a raise. -/
def pwmRun (samplerate : Option ℚ) (startedge : Nat) (edges : List Edge) :
    List Output × Bool :=
  match pwmInitEdges startedge edges with
  | none => ([], true)
  | some (s, rest) =>
    let r := pwmLoop samplerate startedge (initPwmState s) rest
    (r.1, r.2.isSome)

/-- The result record fetched from the IRMP library
(`self.irmp.get_result_data()`); the source dict keys `'repeat'`, `'release'`
and `'end'` are Lean keywords and appear here as `rep`, `rel` and `stop`. -/
structure IrFrame where
  proto_nr : Nat
  proto_name : String
  address : Nat
  command : Nat
  rep : Bool
  rel : Bool
  start : Nat
  stop : Nat
deriving DecidableEq

/-- The per-tier repeat words `rep_txts` of ir_irmp/pd.py `putframe`. -/
def irRepTxts : List String := ["repeat", "rep", "r"]

/-- The per-tier release words `rel_txts` of ir_irmp/pd.py `putframe`. -/
def irRelTxts : List String := ["release", "rel", "R"]

/-- The `flag_txts` lists built by the zoom loop of `putframe`: for each zoom
level, the repeat word when the repeat flag is set followed by the release
word when the release flag is set.  There are `len(rep_txts)` zoom levels. -/
def irFlagLists (rep rel : Bool) : List (List String) :=
  (List.range irRepTxts.length).map fun zoom =>
    (if rep then [irRepTxts.getD zoom ""] else []) ++
    (if rel then [irRelTxts.getD zoom ""] else [])

/-- Python `' '.join(t) or '-'`: space-joined flag words, `-` when empty. -/
def joinFlags (l : List String) : String :=
  match l with
  | [] => "-"
  | _ => String.intercalate " " l

/-- The joined per-zoom flag strings `flg` of `putframe`. -/
def irFlagTxts (rep rel : Bool) : List String :=
  (irFlagLists rep rel).map joinFlags

/-- Python `'{:x}'.format n`: lowercase hexadecimal. -/
def hexStr (n : Nat) : String := String.mk (Nat.toDigits 16 n)

/-- Python `'{:04x}'.format n`: lowercase hexadecimal, zero-padded to four
characters. -/
def hexPad4 (n : Nat) : String := padZeros 4 (hexStr n)

/-- The five annotation text variants built by `putframe` (most to least
detailed); the format strings reference the flag strings at zoom indices
0, 1, 1, 2 and the terminal variant references none. -/
def irmpTxts (d : IrFrame) : List String :=
  let flg := irFlagTxts d.rep d.rel
  [ "Protocol: " ++ d.proto_name ++ " (" ++ toString d.proto_nr ++ "), Address 0x" ++
      hexPad4 d.address ++ ", Command: 0x" ++ hexPad4 d.command ++ ", Flags: " ++ flg.getD 0 "",
    "P: " ++ d.proto_name ++ " (" ++ toString d.proto_nr ++ "), Addr: 0x" ++
      hexStr d.address ++ ", Cmd: 0x" ++ hexStr d.command ++ ", Flg: " ++ flg.getD 1 "",
    "P: " ++ toString d.proto_nr ++ " A: 0x" ++ hexStr d.address ++ " C: 0x" ++
      hexStr d.command ++ " F: " ++ flg.getD 1 "",
    "C:" ++ hexStr d.command ++ " A:" ++ hexStr d.address ++ " " ++ flg.getD 2 "",
    "C:" ++ hexStr d.command ]

/-- The zoom indices of the flag strings referenced by the five tier format
strings of `putframe` (`flg[0]`, `flg[1]`, `flg[1]`, `flg[2]`; the fifth tier
references none). -/
def irTierFlagZooms : List Nat := [0, 1, 1, 2]

/-- Decoder.putframe of ir_irmp/pd.py: scale the library-relative `start`/
`end` timestamps by the rate factor and emit the annotation. -/
def putframeAnn (rate_factor : Nat) (d : IrFrame) : Output :=
  Output.ann (d.start * rate_factor) (d.stop * rate_factor) 0 (irmpTxts d)

/-- The external IRMP symbol library, an opaque stateful collaborator with
`add_one_sample : bit -> bool` and `get_result_data`; modelled as an injected
dependency over an abstract state type, as the spec's design notes direct. -/
structure IrmpLib (σ : Type) where
  addOneSample : σ → Nat → σ × Bool
  getResultData : σ → IrFrame

/-- The ir_irmp `decode` main loop: feed the (polarity-adjusted) current
sample to the library, emit a frame annotation whenever the library reports
one complete, then `wait([{'skip': rate_factor}])` to the sample
`rate_factor` positions further on.  `raw` is the capture's sample stream by
sample number, `i` the current sample number, `fuel` the number of loop
iterations until the stream is exhausted. -/
def irmpRun {σ : Type} (L : IrmpLib σ) (rate_factor active : Nat) (raw : Nat → Nat) :
    σ → Nat → Nat → σ × List Output
  | s, _, 0 => (s, [])
  | s, i, fuel + 1 =>
    let ir0 := raw i
    let ir := if active = 1 then 1 - ir0 else ir0
    let fed := L.addOneSample s ir
    let rest := irmpRun L rate_factor active raw fed.1 (i + rate_factor) fuel
    if fed.2 then (rest.1, putframeAnn rate_factor (L.getResultData fed.1) :: rest.2)
    else (rest.1, rest.2)

/-- The startup validation and main loop of ir_irmp `decode` (lines 107-122):
a missing (or falsy) sample rate and a capture rate that is not an exact
integer multiple of the library rate are rejected before any sample is
consumed; otherwise the loop runs at rate factor `samplerate / lib_rate`. -/
def irmpDecode {σ : Type} (L : IrmpLib σ) (s0 : σ) (samplerate : Option Nat)
    (lib_rate : Nat) (polarity_active_high : Bool) (raw : Nat → Nat) (fuel : Nat) :
    Except String (σ × List Output) :=
  match samplerate with
  | none => Except.error "Cannot decode without samplerate."
  | some sr =>
    if sr = 0 then Except.error "Cannot decode without samplerate."
    else if sr % lib_rate ≠ 0 then
      Except.error ("capture samplerate must be multiple of library samplerate (" ++
        toString lib_rate ++ ")")
    else
      let rate_factor := sr / lib_rate
      let active := if polarity_active_high then 1 else 0
      Except.ok (irmpRun L rate_factor active raw s0 0 fuel)

/-- The decimated, polarity-adjusted subsequence of the raw sample stream:
the bit fed to the library on iteration `k` starting from sample `i` is the
raw sample at `i + k * rate_factor`.  This is the spec side of the
decimation claim, compared against `irmpRun` below. -/
def decimatedBits (raw : Nat → Nat) (active rate_factor i n : Nat) : List Nat :=
  (List.range n).map fun k =>
    let v := raw (i + k * rate_factor)
    if active = 1 then 1 - v else v

/-- Well-formedness of a pwm edge stream after its first start edge at `s`,
presented as (fall, rise) sample-number pairs: `wait({0: 'e'})` returns
strictly increasing sample numbers and strictly alternating pin values. -/
def chainOk : Nat → List (Nat × Nat) → Prop
  | _, [] => True
  | s, (f, n) :: rest => s < f ∧ f < n ∧ chainOk n rest

/-- The edge stream corresponding to a list of (fall, rise) pairs. -/
def interleave (ps : List (Nat × Nat)) : List Edge :=
  ps.flatMap fun p => [⟨p.1, 0⟩, ⟨p.2, 1⟩]

/-- The duty-cycle percentage computed for the cycle from start edge `s` to
start edge `n` with fall edge `f`: `float(duty / period) * 100`. -/
def cyclePercent (s f n : Nat) : ℚ :=
  ((((f : ℤ) - (s : ℤ)) : ℤ) : ℚ) / ((((n : ℤ) - (s : ℤ)) : ℤ) : ℚ) * 100

/-- The binary payload computed for a cycle: `int(ratio * 256)`. -/
def cycleByte (s f n : Nat) : Nat :=
  (pyInt (((((f : ℤ) - (s : ℤ)) : ℤ) : ℚ) / ((((n : ℤ) - (s : ℤ)) : ℤ) : ℚ) * 256)).toNat

/-- The four records the pwm decoder emits on completing the cycle from
start edge `s` (with fall edge `f`) at start edge `n`, having already
completed `c` cycles with percentage sum `a` since the very first start edge
`first`: the duty-cycle annotation, the binary byte, the period annotation
and the running-average meta record, in emission order. -/
def cycleOuts (r : ℚ) (first s c : Nat) (a : ℚ) (f n : Nat) : List Output :=
  [Output.ann s n 0 [fmt6 (cyclePercent s f n) ++ "%"],
   Output.bin c c (cycleByte s f n),
   Output.ann s n 1 [putpText (((((n : ℤ) - (s : ℤ)) : ℤ) : ℚ) / r)],
   Output.meta first n ((a + cyclePercent s f n) / ((c + 1 : Nat) : ℚ))]

/-- The outputs of the pwm main loop over a well-formed list of (fall, rise)
pairs, starting a cycle at `s` with `c` cycles done and percentage sum `a`. -/
def expOuts (r : ℚ) (first : Nat) : Nat → Nat → ℚ → List (Nat × Nat) → List Output
  | _, _, _, [] => []
  | s, c, a, (f, n) :: rest =>
    cycleOuts r first s c a f n ++ expOuts r first n (c + 1) (a + cyclePercent s f n) rest

/-- The (start, end) ranges of the class-0 (duty-cycle) annotations of an
output list, in emission order. -/
def class0Ranges (outs : List Output) : List (Nat × Nat) :=
  outs.filterMap fun o =>
    match o with
    | Output.ann ss es 0 _ => some (ss, es)
    | _ => none

/-- The (start, end) ranges of the class-1 (period) annotations of an output
list, in emission order. -/
def class1Ranges (outs : List Output) : List (Nat × Nat) :=
  outs.filterMap fun o =>
    match o with
    | Output.ann ss es 1 _ => some (ss, es)
    | _ => none

/-- The text lists of the class-0 (duty-cycle) annotations. -/
def class0Txts (outs : List Output) : List (List String) :=
  outs.filterMap fun o =>
    match o with
    | Output.ann _ _ 0 txts => some txts
    | _ => none

/-- The (start, end, value) meta records of an output list. -/
def metaRecords (outs : List Output) : List (Nat × Nat × ℚ) :=
  outs.filterMap fun o =>
    match o with
    | Output.meta ss es v => some (ss, es, v)
    | _ => none

/-- The (start, end, payload) binary records of an output list. -/
def binRecords (outs : List Output) : List (Nat × Nat × Nat) :=
  outs.filterMap fun o =>
    match o with
    | Output.bin ss es b => some (ss, es, b)
    | _ => none

/-- The sample ranges of the completed cycles: from each start edge to the
next start edge. -/
def cycleRanges (s : Nat) : List (Nat × Nat) → List (Nat × Nat)
  | [] => []
  | (_, n) :: rest => (s, n) :: cycleRanges n rest

/-- The expected duty-cycle annotation texts, one singleton list per cycle. -/
def cyclePercentTxts (s : Nat) : List (Nat × Nat) → List (List String)
  | [] => []
  | (f, n) :: rest => [fmt6 (cyclePercent s f n) ++ "%"] :: cyclePercentTxts n rest

/-- The expected meta records: each spans from the very first start edge to
the current start edge and carries the running average of the percentages. -/
def metaRecs (first : Nat) : Nat → Nat → ℚ → List (Nat × Nat) → List (Nat × Nat × ℚ)
  | _, _, _, [] => []
  | s, c, a, (f, n) :: rest =>
    (first, n, (a + cyclePercent s f n) / ((c + 1 : Nat) : ℚ)) ::
      metaRecs first n (c + 1) (a + cyclePercent s f n) rest

/-- The expected binary records: the `c`-th completed cycle is tagged at
position `c` (the value of `num_cycles` when `putb` runs). -/
def binRecs : Nat → Nat → List (Nat × Nat) → List (Nat × Nat × Nat)
  | _, _, [] => []
  | c, s, (f, n) :: rest => (c, c, cycleByte s f n) :: binRecs (c + 1) n rest

/-- The sample number of the last edge of the stream `⟨s,1⟩ :: interleave ps`
(the last rise, or `s` when there is no full cycle). -/
def lastRise (s : Nat) (ps : List (Nat × Nat)) : Nat :=
  ps.foldl (fun _ p => p.2) s

/-- The (fall, rise) pairs of a periodic square wave whose cycles start at
`t0`, stay asserted for `H` samples and have period `P`, for `m` full
cycles. -/
def sqPairs (t0 H P : Nat) : Nat → List (Nat × Nat)
  | 0 => []
  | m + 1 => (t0 + H, t0 + P) :: sqPairs (t0 + P) H P m

/-- The edge stream of a periodic square wave with `N` full cycles at start
polarity 1: a rise at `t0`, then alternating falls and rises. -/
def squareEdges (t0 H P N : Nat) : List Edge :=
  ⟨t0, 1⟩ :: interleave (sqPairs t0 H P N)

/-- The duty-cycle percentage of every cycle of the square wave. -/
def sqPct (H P : Nat) : ℚ := (H : ℚ) / (P : ℚ) * 100

/-- A concrete stand-in for the opaque IRMP library used to witness the
decimation theorem: its state counts a weighted sum of the fed bits and it
reports a frame on every third feed. -/
def pulseLib : IrmpLib Nat where
  addOneSample := fun s b => (s + b + 1, (s + b + 1) % 3 == 0)
  getResultData := fun s => ⟨2, "NEC", 16, s, false, false, s, s + 1⟩

theorem pyRound_natCast (m : ℕ) : pyRound ((m : ℚ)) = (m : ℤ) := by
  unfold pyRound
  rw [Rat.num_natCast, Rat.den_natCast]
  rw [Int.tdiv_eq_ediv (by omega) (by omega)]
  omega

theorem pyInt_eq_floor (q : ℚ) (h : 0 ≤ q) : pyInt q = ⌊q⌋ := by
  rw [Rat.floor_def]
  exact Int.tdiv_eq_ediv (Rat.num_nonneg.mpr h) (by positivity)

theorem fmt1_natCast (m : ℕ) : fmt1 ((m : ℚ)) = toString (m : ℤ) ++ "." ++ "0" := by
  simp only [fmt1]
  have h : ((m : ℚ) * 10) = ((m * 10 : ℕ) : ℚ) := by push_cast; ring
  rw [h, pyRound_natCast]
  have h2 : ((m * 10 : ℕ) : ℤ) / 10 = (m : ℤ) := by push_cast; omega
  have h3 : (((m * 10 : ℕ) : ℤ) % 10).toNat = 0 := by
    have h4 : ((m * 10 : ℕ) : ℤ) % 10 = 0 := by push_cast; omega
    rw [h4]; rfl
  rw [h2, h3]
  have h5 : toString (0 : ℕ) = "0" := by decide
  rw [h5]

theorem fmt6_natCast (m : ℕ) : fmt6 ((m : ℚ)) = toString (m : ℤ) ++ "." ++ "000000" := by
  simp only [fmt6]
  have h : ((m : ℚ) * 1000000) = ((m * 1000000 : ℕ) : ℚ) := by push_cast; ring
  rw [h, pyRound_natCast]
  have h2 : ((m * 1000000 : ℕ) : ℤ) / 1000000 = (m : ℤ) := by push_cast; omega
  have h3 : (((m * 1000000 : ℕ) : ℤ) % 1000000).toNat = 0 := by
    have h4 : ((m * 1000000 : ℕ) : ℤ) % 1000000 = 0 := by push_cast; omega
    rw [h4]; rfl
  rw [h2, h3]
  rfl

theorem bytesOf_in_range (i : ℤ) (h0 : 0 ≤ i) (h1 : i < 256) :
    bytesOf i = some i.toNat := by
  unfold bytesOf
  rw [if_pos ⟨h0, h1⟩]

theorem pwmStep_fall (sr : Option ℚ) (first s : Nat) (eo sb eb : Option Nat)
    (c : Nat) (a : ℚ) (f : Nat) :
    pwmStep sr 1 ⟨first, s, eo, sb, eb, c, a⟩ ⟨f, 0⟩ =
      ([], some ⟨first, s, some f, some f, eb, c, a⟩) := by
  simp [pwmStep]

theorem cyclePercent_nonneg (s f n : Nat) (hsf : s ≤ f) (hfn : f ≤ n) :
    0 ≤ cyclePercent s f n := by
  unfold cyclePercent
  have h1 : (0 : ℚ) ≤ ((((f : ℤ) - (s : ℤ)) : ℤ) : ℚ) := Int.cast_nonneg.mpr (by omega)
  have h2 : (0 : ℚ) ≤ ((((n : ℤ) - (s : ℤ)) : ℤ) : ℚ) := Int.cast_nonneg.mpr (by omega)
  exact mul_nonneg (div_nonneg h1 h2) (by norm_num)

theorem pwmStep_rise (r : ℚ) (hr : r ≠ 0) (first s endS n c : Nat) (a : ℚ)
    (sb eb : Option Nat) (hse : s ≤ endS) (hen : endS < n) :
    pwmStep (some r) 1 ⟨first, s, some endS, sb, eb, c, a⟩ ⟨n, 1⟩ =
      (cycleOuts r first s c a endS n,
       some ⟨first, n, some endS, some s, some n, c + 1, a + cyclePercent s endS n⟩) := by
  have hper : ((n : ℤ) - (s : ℤ)) ≠ 0 := by omega
  have hratio0 : (0 : ℚ) ≤ ((((endS : ℤ) - (s : ℤ)) : ℤ) : ℚ) / ((((n : ℤ) - (s : ℤ)) : ℤ) : ℚ) := by
    apply div_nonneg
    · exact Int.cast_nonneg.mpr (by omega)
    · exact Int.cast_nonneg.mpr (by omega)
  have hratio1 : ((((endS : ℤ) - (s : ℤ)) : ℤ) : ℚ) / ((((n : ℤ) - (s : ℤ)) : ℤ) : ℚ) < 1 := by
    rw [div_lt_one (by exact_mod_cast (by omega : (0 : ℤ) < (n : ℤ) - (s : ℤ)))]
    exact_mod_cast (by omega : (endS : ℤ) - (s : ℤ) < (n : ℤ) - (s : ℤ))
  have hb0 : (0 : ℤ) ≤ pyInt (((((endS : ℤ) - (s : ℤ)) : ℤ) : ℚ) / ((((n : ℤ) - (s : ℤ)) : ℤ) : ℚ) * 256) := by
    rw [pyInt_eq_floor _ (mul_nonneg hratio0 (by norm_num))]
    exact Int.floor_nonneg.mpr (mul_nonneg hratio0 (by norm_num))
  have hb1 : pyInt (((((endS : ℤ) - (s : ℤ)) : ℤ) : ℚ) / ((((n : ℤ) - (s : ℤ)) : ℤ) : ℚ) * 256) < 256 := by
    rw [pyInt_eq_floor _ (mul_nonneg hratio0 (by norm_num))]
    apply Int.floor_lt.mpr
    have h256 : (((256 : ℤ)) : ℚ) = 256 := by norm_num
    rw [h256]
    have hmul := mul_lt_mul_of_pos_right hratio1 (show (0 : ℚ) < 256 by norm_num)
    linarith
  simp only [pwmStep]
  rw [if_neg hper]
  rw [bytesOf_in_range _ hb0 hb1]
  simp [cycleOuts, cyclePercent, cycleByte, hr]

theorem interleave_cons (f n : Nat) (rest : List (Nat × Nat)) :
    interleave ((f, n) :: rest) = ⟨f, 0⟩ :: ⟨n, 1⟩ :: interleave rest := by
  simp [interleave]

/-- The pwm main loop, started at a start edge `s` with `c` cycles done and
percentage sum `a`, processes a well-formed alternating edge stream into
exactly the per-cycle records of `expOuts` and stops cleanly. -/
theorem pwmLoop_interleave (r : ℚ) (hr : r ≠ 0) (first : Nat) :
    ∀ (ps : List (Nat × Nat)) (s c : Nat) (a : ℚ) (eo sb eb : Option Nat),
      chainOk s ps →
      ∃ st', pwmLoop (some r) 1 ⟨first, s, eo, sb, eb, c, a⟩ (interleave ps) =
        (expOuts r first s c a ps, some st') := by
  intro ps
  induction ps with
  | nil =>
    intro s c a eo sb eb _
    exact ⟨_, rfl⟩
  | cons p rest ih =>
    obtain ⟨f, n⟩ := p
    intro s c a eo sb eb hch
    obtain ⟨hsf, hfn, hrest⟩ := hch
    obtain ⟨stf, hstf⟩ := ih n (c + 1) (a + cyclePercent s f n) (some f) (some s) (some n) hrest
    refine ⟨stf, ?_⟩
    rw [interleave_cons]
    simp only [pwmLoop, pwmStep_fall,
      pwmStep_rise r hr first s f n c a (some f) eb (Nat.le_of_lt hsf) hfn, hstf, expOuts]
    simp

theorem class0Ranges_expOuts (r : ℚ) (first : Nat) :
    ∀ (ps : List (Nat × Nat)) (s c : Nat) (a : ℚ),
      class0Ranges (expOuts r first s c a ps) = cycleRanges s ps := by
  intro ps
  induction ps with
  | nil => intro s c a; rfl
  | cons p rest ih =>
    obtain ⟨f, n⟩ := p
    intro s c a
    simp [expOuts, cycleOuts, class0Ranges, cycleRanges, List.filterMap_cons]
    exact ih n (c + 1) (a + cyclePercent s f n)

theorem class1Ranges_expOuts (r : ℚ) (first : Nat) :
    ∀ (ps : List (Nat × Nat)) (s c : Nat) (a : ℚ),
      class1Ranges (expOuts r first s c a ps) = cycleRanges s ps := by
  intro ps
  induction ps with
  | nil => intro s c a; rfl
  | cons p rest ih =>
    obtain ⟨f, n⟩ := p
    intro s c a
    simp [expOuts, cycleOuts, class1Ranges, cycleRanges, List.filterMap_cons]
    exact ih n (c + 1) (a + cyclePercent s f n)

theorem class0Txts_expOuts (r : ℚ) (first : Nat) :
    ∀ (ps : List (Nat × Nat)) (s c : Nat) (a : ℚ),
      class0Txts (expOuts r first s c a ps) = cyclePercentTxts s ps := by
  intro ps
  induction ps with
  | nil => intro s c a; rfl
  | cons p rest ih =>
    obtain ⟨f, n⟩ := p
    intro s c a
    simp [expOuts, cycleOuts, class0Txts, cyclePercentTxts, List.filterMap_cons]
    exact ih n (c + 1) (a + cyclePercent s f n)

theorem metaRecords_expOuts (r : ℚ) (first : Nat) :
    ∀ (ps : List (Nat × Nat)) (s c : Nat) (a : ℚ),
      metaRecords (expOuts r first s c a ps) = metaRecs first s c a ps := by
  intro ps
  induction ps with
  | nil => intro s c a; rfl
  | cons p rest ih =>
    obtain ⟨f, n⟩ := p
    intro s c a
    simp [expOuts, cycleOuts, metaRecords, metaRecs, List.filterMap_cons]
    exact ih n (c + 1) (a + cyclePercent s f n)

theorem binRecords_expOuts (r : ℚ) (first : Nat) :
    ∀ (ps : List (Nat × Nat)) (s c : Nat) (a : ℚ),
      binRecords (expOuts r first s c a ps) = binRecs c s ps := by
  intro ps
  induction ps with
  | nil => intro s c a; rfl
  | cons p rest ih =>
    obtain ⟨f, n⟩ := p
    intro s c a
    simp [expOuts, cycleOuts, binRecords, binRecs, List.filterMap_cons]
    exact ih n (c + 1) (a + cyclePercent s f n)

/-- A well-started pwm run: the first observed edge already matches the
start polarity, the rest of the stream is well formed.  The outputs are the
per-cycle records and the run stops cleanly at end of stream. -/
theorem pwmRun_start (r : ℚ) (hr : r ≠ 0) (s : Nat) (ps : List (Nat × Nat))
    (hch : chainOk s ps) :
    pwmRun (some r) 1 (⟨s, 1⟩ :: interleave ps) = (expOuts r s s 0 0 ps, true) := by
  obtain ⟨st', hst⟩ := pwmLoop_interleave r hr s ps s 0 0 none none none hch
  simp only [pwmRun, pwmInitEdges, if_true, initPwmState]
  rw [hst]
  rfl

theorem cycleRanges_lt :
    ∀ (ps : List (Nat × Nat)) (s : Nat), chainOk s ps →
      ∀ pr ∈ cycleRanges s ps, pr.1 < pr.2 := by
  intro ps
  induction ps with
  | nil => intro s _ pr hpr; simp [cycleRanges] at hpr
  | cons p rest ih =>
    obtain ⟨f, n⟩ := p
    intro s hch pr hpr
    obtain ⟨hsf, hfn, hrest⟩ := hch
    simp only [cycleRanges, List.mem_cons] at hpr
    rcases hpr with h | h
    · rw [h]; exact lt_trans hsf hfn
    · exact ih n hrest pr h

theorem cycleRanges_chain :
    ∀ (ps : List (Nat × Nat)) (s : Nat),
      List.Chain' (fun a b => a.2 = b.1) (cycleRanges s ps) := by
  intro ps
  induction ps with
  | nil => intro s; simp [cycleRanges]
  | cons p rest ih =>
    obtain ⟨f, n⟩ := p
    intro s
    cases rest with
    | nil => simp [cycleRanges]
    | cons q rest' =>
      obtain ⟨f2, n2⟩ := q
      have h := ih n
      simp only [cycleRanges] at h ⊢
      exact List.Chain'.cons rfl h

theorem length_cycleRanges :
    ∀ (ps : List (Nat × Nat)) (s : Nat), (cycleRanges s ps).length = ps.length := by
  intro ps
  induction ps with
  | nil => intro s; rfl
  | cons p rest ih =>
    obtain ⟨f, n⟩ := p
    intro s
    simp only [cycleRanges, List.length_cons]
    rw [ih n]

theorem lastRise_ge :
    ∀ (ps : List (Nat × Nat)) (s : Nat), chainOk s ps →
      s + 2 * ps.length ≤ lastRise s ps := by
  intro ps
  induction ps with
  | nil => intro s _; simp [lastRise]
  | cons p rest ih =>
    obtain ⟨f, n⟩ := p
    intro s hch
    obtain ⟨hsf, hfn, hrest⟩ := hch
    have h := ih n hrest
    simp only [lastRise, List.foldl_cons, List.length_cons] at h ⊢
    omega

theorem binRecs_mem :
    ∀ (ps : List (Nat × Nat)) (c s : Nat) (x : Nat × Nat × Nat),
      x ∈ binRecs c s ps → x.1 = x.2.1 ∧ c ≤ x.1 ∧ x.1 < c + ps.length := by
  intro ps
  induction ps with
  | nil => intro c s x hx; simp [binRecs] at hx
  | cons p rest ih =>
    obtain ⟨f, n⟩ := p
    intro c s x hx
    simp only [binRecs, List.mem_cons] at hx
    rcases hx with h | h
    · rw [h]; exact ⟨rfl, le_refl c, by simp⟩
    · obtain ⟨h1, h2, h3⟩ := ih (c + 1) n x h
      refine ⟨h1, by omega, ?_⟩
      simp only [List.length_cons]
      omega

theorem chainOk_sqPairs (H P : Nat) (hH : 0 < H) (hHP : H < P) :
    ∀ (m t0 : Nat), chainOk t0 (sqPairs t0 H P m) := by
  intro m
  induction m with
  | zero => intro t0; trivial
  | succ k ih => intro t0; exact ⟨by omega, by omega, ih (t0 + P)⟩

theorem length_sqPairs (H P : Nat) :
    ∀ (m t0 : Nat), (sqPairs t0 H P m).length = m := by
  intro m
  induction m with
  | zero => intro t0; rfl
  | succ k ih => intro t0; simp only [sqPairs, List.length_cons]; rw [ih (t0 + P)]

theorem cyclePercent_sq (t0 H P : Nat) :
    cyclePercent t0 (t0 + H) (t0 + P) = sqPct H P := by
  unfold cyclePercent sqPct
  push_cast
  rw [add_sub_cancel_left, add_sub_cancel_left]

theorem metaRecs_sqPairs (first H P : Nat) :
    ∀ (m t0 c : Nat) (a : ℚ),
      metaRecs first t0 c a (sqPairs t0 H P m) =
        (List.range m).map (fun k =>
          (first, t0 + (k + 1) * P,
           (a + ((k + 1 : Nat) : ℚ) * sqPct H P) / ((c + k + 1 : Nat) : ℚ))) := by
  intro m
  induction m with
  | zero => intro t0 c a; rfl
  | succ mm ih =>
    intro t0 c a
    simp only [sqPairs, metaRecs, cyclePercent_sq]
    rw [ih (t0 + P) (c + 1) (a + sqPct H P)]
    rw [List.range_succ_eq_map]
    simp only [List.map_cons, List.map_map]
    congr 1
    · have h1 : t0 + (0 + 1) * P = t0 + P := by omega
      have h2 : ((0 + 1 : Nat) : ℚ) * sqPct H P = sqPct H P := by norm_num
      rw [h1, h2]
    · apply List.map_congr_left
      intro k _
      simp only [Function.comp]
      have h1 : t0 + P + (k + 1) * P = t0 + (k + 1 + 1) * P := by ring
      have h2 : a + sqPct H P + ((k + 1 : Nat) : ℚ) * sqPct H P =
          a + ((k + 1 + 1 : Nat) : ℚ) * sqPct H P := by push_cast; ring
      have h3 : c + 1 + k + 1 = c + (k + 1) + 1 := by omega
      rw [h1, h2, h3]

theorem decimatedBits_succ (raw : Nat → Nat) (active rf i k : Nat) :
    decimatedBits raw active rf i (k + 1) =
      (if active = 1 then 1 - raw i else raw i) :: decimatedBits raw active rf (i + rf) k := by
  unfold decimatedBits
  rw [List.range_succ_eq_map]
  simp only [List.map_cons, List.map_map]
  congr 1
  · simp
  · apply List.map_congr_left
    intro j _
    simp only [Function.comp]
    have h : i + (j + 1) * rf = i + rf + j * rf := by ring
    rw [h]

/-- The library state evolution of the ir_irmp main loop: the run feeds the
library exactly the decimated, polarity-adjusted bits, one per `rate_factor`
raw samples. -/
theorem irmpRun_feeds {σ : Type} (L : IrmpLib σ) (rf active : Nat) (raw : Nat → Nat) :
    ∀ (n : Nat) (s : σ) (i : Nat),
      (irmpRun L rf active raw s i n).1 =
        (decimatedBits raw active rf i n).foldl (fun t b => (L.addOneSample t b).1) s := by
  intro n
  induction n with
  | zero => intro s i; rfl
  | succ k ih =>
    intro s i
    rw [decimatedBits_succ]
    simp only [List.foldl_cons]
    rw [← ih]
    simp only [irmpRun]
    by_cases hc : (L.addOneSample s (if active = 1 then 1 - raw i else raw i)).2
    · rw [if_pos hc]
    · rw [if_neg hc]

/-- Every record emitted by the ir_irmp main loop is a frame annotation whose
engine timestamps are the library-relative timestamps multiplied by the rate
factor. -/
theorem irmpRun_frames_scaled {σ : Type} (L : IrmpLib σ) (rf active : Nat) (raw : Nat → Nat) :
    ∀ (n : Nat) (s : σ) (i : Nat), ∀ o ∈ (irmpRun L rf active raw s i n).2,
      ∃ d : IrFrame, o = Output.ann (d.start * rf) (d.stop * rf) 0 (irmpTxts d) := by
  intro n
  induction n with
  | zero => intro s i o ho; simp [irmpRun] at ho
  | succ k ih =>
    intro s i o ho
    simp only [irmpRun] at ho
    by_cases hc : (L.addOneSample s (if active = 1 then 1 - raw i else raw i)).2
    · rw [if_pos hc] at ho
      simp only [List.mem_cons] at ho
      rcases ho with h | h
      · exact ⟨_, by rw [h]; rfl⟩
      · exact ih _ _ o h
    · rw [if_neg hc] at ho
      exact ih _ _ o ho

theorem irmpDecode_no_samplerate {σ : Type} (L : IrmpLib σ) (s0 : σ) (lib_rate : Nat)
    (pol : Bool) (raw : Nat → Nat) (fuel : Nat) :
    irmpDecode L s0 none lib_rate pol raw fuel =
      Except.error "Cannot decode without samplerate." := rfl

theorem irmpDecode_not_multiple {σ : Type} (L : IrmpLib σ) (s0 : σ) (sr lib_rate : Nat)
    (pol : Bool) (raw : Nat → Nat) (fuel : Nat) (h0 : sr ≠ 0) (hm : sr % lib_rate ≠ 0) :
    irmpDecode L s0 (some sr) lib_rate pol raw fuel =
      Except.error ("capture samplerate must be multiple of library samplerate (" ++
        toString lib_rate ++ ")") := by
  simp [irmpDecode, h0, hm]

theorem irmpDecode_ok {σ : Type} (L : IrmpLib σ) (s0 : σ) (sr lib_rate : Nat)
    (pol : Bool) (raw : Nat → Nat) (fuel : Nat) (h0 : sr ≠ 0) (hm : sr % lib_rate = 0) :
    irmpDecode L s0 (some sr) lib_rate pol raw fuel =
      Except.ok (irmpRun L (sr / lib_rate) (if pol then 1 else 0) raw s0 0 fuel) := by
  simp [irmpDecode, h0, hm]

/-- Helper: the pwm decoder, run without sample-rate metadata on a rising
edge at 0, a falling edge at 1 and a rising edge at 2, emits the duty-cycle
annotation and the binary record of the first completed cycle and only then
aborts (`period / self.samplerate` raises); nothing guards the sample rate
before the loop. -/
theorem pwm_no_samplerate_eval :
    pwmRun none 1 [⟨0, 1⟩, ⟨1, 0⟩, ⟨2, 1⟩] =
      ([Output.ann 0 2 0 ["50.000000%"], Output.bin 0 0 128], false) := by
  simp only [pwmRun, pwmInitEdges, if_true, initPwmState, pwmLoop, pwmStep_fall]
  simp only [pwmStep]
  norm_num
  have hp : pyInt (128 : ℚ) = 128 := by
    unfold pyInt
    rw [Rat.num_ofNat, Rat.den_ofNat]
    decide
  have hb : bytesOf (128 : ℤ) = some 128 := by
    unfold bytesOf
    rw [if_pos (by norm_num)]
    decide
  have hf : fmt6 (50 : ℚ) = "50.000000" := by
    rw [show (50 : ℚ) = ((50 : ℕ) : ℚ) by norm_num, fmt6_natCast]
    decide
  rw [hp, hb, hf]
  decide

/-- C1 counterexample.  The claim quantifies over `0 ≤ duty ≤ period`; at
`duty = period` (state: start edge at 0, opposite edge recorded at 2, next
start edge also at 2 — `ratio = 1`) the code computes `int(1.0 * 256) = 256`
and `bytes([256])` raises `ValueError`: the duty-cycle annotation is emitted
and the run aborts, and no binary record clamped to 255 is ever produced. -/
theorem pwm_full_duty_ratio_aborts :
    pwmStep (some 1) 1 ⟨0, 0, some 2, none, none, 0, 0⟩ ⟨2, 1⟩ =
      ([Output.ann 0 2 0 ["100.000000%"]], none) := by
  simp only [pwmStep]
  norm_num
  have hp : pyInt (256 : ℚ) = 256 := by
    unfold pyInt
    rw [Rat.num_ofNat, Rat.den_ofNat]
    decide
  rw [hp]
  have hb : bytesOf (256 : ℤ) = none := by
    unfold bytesOf
    rw [if_neg (by norm_num)]
  rw [hb]
  have hf : fmt6 (100 : ℚ) = "100.000000" := by
    rw [show (100 : ℚ) = ((100 : ℕ) : ℚ) by norm_num, fmt6_natCast]
    decide
  rw [hf]
  decide

/-- C1, amended: for every completed measurement with `period > 0` and
`0 ≤ duty < period` (every measurement the machine can complete, since edges
strictly alternate), the emitted percentage is exactly `100 * duty / period`
and the binary payload is `floor(ratio * 256)`, which already lies in
`[0, 255]` so that clamping never alters it; at `duty = period` the code
raises instead of clamping. -/
theorem pwm_cycle_measurement_outputs (r : ℚ) (first s endS n c : Nat) (a : ℚ)
    (sb eb : Option Nat) (hr : r ≠ 0) (hse : s ≤ endS) (hen : endS < n) :
    pwmStep (some r) 1 ⟨first, s, some endS, sb, eb, c, a⟩ ⟨n, 1⟩ =
      (cycleOuts r first s c a endS n,
       some ⟨first, n, some endS, some s, some n, c + 1, a + cyclePercent s endS n⟩) ∧
    cyclePercent s endS n =
      100 * ((((endS : ℤ) - (s : ℤ)) : ℤ) : ℚ) / ((((n : ℤ) - (s : ℤ)) : ℤ) : ℚ) ∧
    (cycleByte s endS n : ℤ) =
      max 0 (min 255 ⌊((((endS : ℤ) - (s : ℤ)) : ℤ) : ℚ) / ((((n : ℤ) - (s : ℤ)) : ℤ) : ℚ) * 256⌋) := by
  refine ⟨pwmStep_rise r hr first s endS n c a sb eb hse hen, ?_, ?_⟩
  · unfold cyclePercent
    ring
  · have hratio0 : (0 : ℚ) ≤ ((((endS : ℤ) - (s : ℤ)) : ℤ) : ℚ) / ((((n : ℤ) - (s : ℤ)) : ℤ) : ℚ) := by
      apply div_nonneg
      · exact Int.cast_nonneg.mpr (by omega)
      · exact Int.cast_nonneg.mpr (by omega)
    have hratio1 : ((((endS : ℤ) - (s : ℤ)) : ℤ) : ℚ) / ((((n : ℤ) - (s : ℤ)) : ℤ) : ℚ) < 1 := by
      rw [div_lt_one (by exact_mod_cast (by omega : (0 : ℤ) < (n : ℤ) - (s : ℤ)))]
      exact_mod_cast (by omega : (endS : ℤ) - (s : ℤ) < (n : ℤ) - (s : ℤ))
    have hfl0 : (0 : ℤ) ≤ ⌊((((endS : ℤ) - (s : ℤ)) : ℤ) : ℚ) / ((((n : ℤ) - (s : ℤ)) : ℤ) : ℚ) * 256⌋ :=
      Int.floor_nonneg.mpr (mul_nonneg hratio0 (by norm_num))
    have hfl1 : ⌊((((endS : ℤ) - (s : ℤ)) : ℤ) : ℚ) / ((((n : ℤ) - (s : ℤ)) : ℤ) : ℚ) * 256⌋ < 256 := by
      apply Int.floor_lt.mpr
      have h256 : (((256 : ℤ)) : ℚ) = 256 := by norm_num
      rw [h256]
      have hmul := mul_lt_mul_of_pos_right hratio1 (show (0 : ℚ) < 256 by norm_num)
      linarith
    unfold cycleByte
    rw [pyInt_eq_floor _ (mul_nonneg hratio0 (by norm_num))]
    omega

/-- C1 witness: the amended theorem at the concrete measurement
`duty = 1, period = 2`. -/
theorem pwm_cycle_measurement_outputs_witness :
    pwmStep (some 1000) 1 ⟨0, 0, some 1, none, none, 0, 0⟩ ⟨2, 1⟩ =
      (cycleOuts 1000 0 0 0 0 1 2,
       some ⟨0, 2, some 1, some 0, some 2, 0 + 1, 0 + cyclePercent 0 1 2⟩) ∧
    cyclePercent 0 1 2 =
      100 * ((((1 : ℤ) - (0 : ℤ)) : ℤ) : ℚ) / ((((2 : ℤ) - (0 : ℤ)) : ℤ) : ℚ) ∧
    (cycleByte 0 1 2 : ℤ) =
      max 0 (min 255 ⌊((((1 : ℤ) - (0 : ℤ)) : ℤ) : ℚ) / ((((2 : ℤ) - (0 : ℤ)) : ℤ) : ℚ) * 256⌋) :=
  pwm_cycle_measurement_outputs 1000 0 0 1 2 0 0 none none (by norm_num) (by norm_num)
    (by norm_num)

/-- C3 counterexample.  Run without sample-rate metadata on edges at samples
0 (rise), 1 (fall), 2 (rise): the pwm decoder does not fail before consuming
samples — it consumes three edges, emits the duty-cycle annotation and the
binary record of the first cycle, and only then aborts, contradicting
"raised before any sample is consumed, with no output emitted". -/
theorem pwm_missing_samplerate_not_rejected :
    (pwmRun none 1 [⟨0, 1⟩, ⟨1, 0⟩, ⟨2, 1⟩]).1 =
      [Output.ann 0 2 0 ["50.000000%"], Output.bin 0 0 128] ∧
    (pwmRun none 1 [⟨0, 1⟩, ⟨1, 0⟩, ⟨2, 1⟩]).2 = false := by
  rw [pwm_no_samplerate_eval]
  exact ⟨rfl, rfl⟩

/-- C3, amended: only the Framed-Symbol Machine (ir_irmp) validates the
sample rate up front — a missing/zero rate or a rate that is not an exact
integer multiple of the library rate makes `decode` raise before any sample
is consumed, with no output; the Duty-Cycle Machine (pwm) performs no such
validation and, run without a sample rate, consumes samples and emits the
first cycle's duty-cycle annotation and binary record before failing at the
period computation. -/
theorem samplerate_validation_irmp_only :
    (∀ (σ : Type) (L : IrmpLib σ) (s0 : σ) (lr : Nat) (pol : Bool)
        (raw : Nat → Nat) (fuel : Nat),
      irmpDecode L s0 none lr pol raw fuel =
        Except.error "Cannot decode without samplerate.") ∧
    (∀ (σ : Type) (L : IrmpLib σ) (s0 : σ) (sr lr : Nat) (pol : Bool)
        (raw : Nat → Nat) (fuel : Nat), sr ≠ 0 → sr % lr ≠ 0 →
      irmpDecode L s0 (some sr) lr pol raw fuel =
        Except.error ("capture samplerate must be multiple of library samplerate (" ++
          toString lr ++ ")")) ∧
    (pwmRun none 1 [⟨0, 1⟩, ⟨1, 0⟩, ⟨2, 1⟩]).1 ≠ [] ∧
    (pwmRun none 1 [⟨0, 1⟩, ⟨1, 0⟩, ⟨2, 1⟩]).2 = false := by
  refine ⟨?_, ?_, ?_, ?_⟩
  · intro σ L s0 lr pol raw fuel
    exact irmpDecode_no_samplerate L s0 lr pol raw fuel
  · intro σ L s0 sr lr pol raw fuel h0 hm
    exact irmpDecode_not_multiple L s0 sr lr pol raw fuel h0 hm
  · rw [pwm_no_samplerate_eval]
    decide
  · rw [pwm_no_samplerate_eval]

/-- C4: the period annotation auto-scales its unit with thresholds at powers
of 1000 — exactly 1.0 second renders as "1.0 s", 500 ns renders in ns,
0.2 ps renders in fs, and every period of at least one second renders in
seconds. -/
theorem putp_autoscaled_units :
    putpText 1 = "1.0 s" ∧
    putpText (500 / 1000000000) = "500.0 ns" ∧
    putpText (2 / 10000000000000) = "200.0 fs" ∧
    (∀ q : ℚ, 1 ≤ q → putpText q = fmt1 q ++ " s") := by
  refine ⟨?_, ?_, ?_, ?_⟩
  · unfold putpText
    rw [if_pos (Or.inr le_rfl)]
    rw [show (1 : ℚ) = ((1 : ℕ) : ℚ) by norm_num, fmt1_natCast]
    decide
  · unfold putpText
    rw [if_neg (by norm_num), if_neg (by norm_num), if_neg (by norm_num),
      if_pos (by norm_num)]
    rw [show (500 : ℚ) / 1000000000 * 1000000000 = ((500 : ℕ) : ℚ) by norm_num,
      fmt1_natCast]
    decide
  · unfold putpText
    rw [if_neg (by norm_num), if_pos (by norm_num)]
    rw [show (2 : ℚ) / 10000000000000 * 1000000000000000 = ((200 : ℕ) : ℚ) by norm_num,
      fmt1_natCast]
    decide
  · intro q hq
    unfold putpText
    rw [if_pos (Or.inr hq)]

/-- C5: on a periodic square wave with `N` full cycles at the start polarity
(cycles begin at `t0`, asserted for `H` of every `P` samples), the machine
emits exactly `N` duty-cycle annotations and exactly `N` period annotations,
and the meta record emitted after the `k`-th completed cycle spans from the
very first start edge `t0` to the current edge `t0 + k * P` and carries the
arithmetic mean of the first `k` duty-cycle percentages. -/
theorem pwm_square_wave_outputs (t0 H P N : Nat) (r : ℚ)
    (hH : 0 < H) (hHP : H < P) (hr : r ≠ 0) :
    (class0Ranges (pwmRun (some r) 1 (squareEdges t0 H P N)).1).length = N ∧
    (class1Ranges (pwmRun (some r) 1 (squareEdges t0 H P N)).1).length = N ∧
    metaRecords (pwmRun (some r) 1 (squareEdges t0 H P N)).1 =
      (List.range N).map (fun k =>
        (t0, t0 + (k + 1) * P,
         (List.replicate (k + 1) (sqPct H P)).sum / ((k + 1 : Nat) : ℚ))) := by
  have hch := chainOk_sqPairs H P hH hHP N t0
  have hrun : pwmRun (some r) 1 (squareEdges t0 H P N) =
      (expOuts r t0 t0 0 0 (sqPairs t0 H P N), true) :=
    pwmRun_start r hr t0 (sqPairs t0 H P N) hch
  refine ⟨?_, ?_, ?_⟩
  · rw [hrun]
    simp only [class0Ranges_expOuts]
    rw [length_cycleRanges, length_sqPairs]
  · rw [hrun]
    simp only [class1Ranges_expOuts]
    rw [length_cycleRanges, length_sqPairs]
  · rw [hrun]
    simp only [metaRecords_expOuts]
    rw [metaRecs_sqPairs]
    apply List.map_congr_left
    intro k _
    have hsum : (List.replicate (k + 1) (sqPct H P)).sum = ((k + 1 : Nat) : ℚ) * sqPct H P := by
      rw [List.sum_replicate, nsmul_eq_mul]
    rw [hsum, zero_add, show 0 + k + 1 = k + 1 from by omega]

/-- C5 witness: three full cycles of the square wave with `H = 1`, `P = 2`,
starting at sample 0, at sample rate 1000. -/
theorem pwm_square_wave_outputs_witness :
    (class0Ranges (pwmRun (some 1000) 1 (squareEdges 0 1 2 3)).1).length = 3 ∧
    (class1Ranges (pwmRun (some 1000) 1 (squareEdges 0 1 2 3)).1).length = 3 ∧
    metaRecords (pwmRun (some 1000) 1 (squareEdges 0 1 2 3)).1 =
      (List.range 3).map (fun k =>
        (0, 0 + (k + 1) * 2,
         (List.replicate (k + 1) (sqPct 1 2)).sum / ((k + 1 : Nat) : ℚ))) :=
  pwm_square_wave_outputs 0 1 2 3 1000 (by norm_num) (by norm_num) (by norm_num)

/-- C6: if the very first observed edge (at sample `d`) does not match the
configured start polarity, the machine discards it — the run equals the run
on the stream without that edge; no output exists after the first matching
start edge (`r0`) and the following opposite edge (`f`); the first outputs
appear exactly at the second start-polarity edge (`r1`) and describe the
proper interval from `r0` to `r1`, never a fabricated degenerate first
interval. -/
theorem pwm_first_nonmatching_edge_discarded (r : ℚ) (d r0 f r1 : Nat)
    (hr : r ≠ 0) (h0 : r0 < f) (h1 : f < r1) :
    pwmRun (some r) 1 (⟨d, 0⟩ :: ⟨r0, 1⟩ :: interleave [(f, r1)]) =
      pwmRun (some r) 1 (⟨r0, 1⟩ :: interleave [(f, r1)]) ∧
    (pwmRun (some r) 1 [⟨d, 0⟩, ⟨r0, 1⟩, ⟨f, 0⟩]).1 = [] ∧
    pwmRun (some r) 1 (⟨d, 0⟩ :: ⟨r0, 1⟩ :: interleave [(f, r1)]) =
      (cycleOuts r r0 r0 0 0 f r1, true) ∧
    (cycleOuts r r0 r0 0 0 f r1).head? =
      some (Output.ann r0 r1 0 [fmt6 (cyclePercent r0 f r1) ++ "%"]) := by
  have hch : chainOk r0 [(f, r1)] := ⟨h0, h1, trivial⟩
  have hstart := pwmRun_start r hr r0 [(f, r1)] hch
  refine ⟨rfl, ?_, ?_, rfl⟩
  · simp [pwmRun, pwmInitEdges, pwmLoop, pwmStep_fall, initPwmState]
  · rw [show (pwmRun (some r) 1 (⟨d, 0⟩ :: ⟨r0, 1⟩ :: interleave [(f, r1)]) :
        List Output × Bool) =
      pwmRun (some r) 1 (⟨r0, 1⟩ :: interleave [(f, r1)]) from rfl]
    rw [hstart]
    simp [expOuts]

/-- C6 witness: first edge falling at sample 5, start edges at 10 and 14,
opposite edge at 12, sample rate 1000. -/
theorem pwm_first_nonmatching_edge_discarded_witness :
    pwmRun (some 1000) 1 (⟨5, 0⟩ :: ⟨10, 1⟩ :: interleave [(12, 14)]) =
      pwmRun (some 1000) 1 (⟨10, 1⟩ :: interleave [(12, 14)]) ∧
    (pwmRun (some 1000) 1 [⟨5, 0⟩, ⟨10, 1⟩, ⟨12, 0⟩]).1 = [] ∧
    pwmRun (some 1000) 1 (⟨5, 0⟩ :: ⟨10, 1⟩ :: interleave [(12, 14)]) =
      (cycleOuts 1000 10 10 0 0 12 14, true) ∧
    (cycleOuts 1000 10 10 0 0 12 14).head? =
      some (Output.ann 10 14 0 [fmt6 (cyclePercent 10 12 14) ++ "%"]) :=
  pwm_first_nonmatching_edge_discarded 1000 5 10 12 14 (by norm_num) (by norm_num)
    (by norm_num)

/-- C9: every binary record of a pwm run has its start sample equal to its
end sample, and that position is a point inside the consumed input stream
(strictly before the last observed edge, whose sample number bounds the
stream positions read).  The position is the number of cycles completed
before the record, which the strictly increasing edge numbers always
dominate. -/
theorem pwm_binary_records_pointlike (r : ℚ) (s : Nat) (ps : List (Nat × Nat))
    (hr : r ≠ 0) (hch : chainOk s ps) :
    s + 2 * ps.length ≤ lastRise s ps ∧
    ∀ x ∈ binRecords (pwmRun (some r) 1 (⟨s, 1⟩ :: interleave ps)).1,
      x.1 = x.2.1 ∧ x.1 < lastRise s ps := by
  have hlast := lastRise_ge ps s hch
  refine ⟨hlast, ?_⟩
  intro x hx
  rw [pwmRun_start r hr s ps hch] at hx
  rw [binRecords_expOuts] at hx
  obtain ⟨h1, h2, h3⟩ := binRecs_mem ps 0 s x hx
  refine ⟨h1, ?_⟩
  omega

/-- C9 witness: one full cycle, rise at 0, fall at 1, rise at 2. -/
theorem pwm_binary_records_pointlike_witness :
    0 + 2 * ([((1 : Nat), (2 : Nat))] : List (Nat × Nat)).length ≤
      lastRise 0 [(1, 2)] ∧
    ∀ x ∈ binRecords (pwmRun (some 1000) 1 (⟨0, 1⟩ :: interleave [(1, 2)])).1,
      x.1 = x.2.1 ∧ x.1 < lastRise 0 [(1, 2)] :=
  pwm_binary_records_pointlike 1000 0 [(1, 2)] (by norm_num)
    ⟨by norm_num, by norm_num, trivial⟩

/-- C10: for each completed cycle the period annotation spans exactly the
same sample range as the duty-cycle annotation — from the previous start
edge to the current one; every such range satisfies start < end; and the
ranges of consecutive cycles are contiguous and non-overlapping, each
starting where the previous one ended. -/
theorem pwm_cycle_annotation_ranges (r : ℚ) (s : Nat) (ps : List (Nat × Nat))
    (hr : r ≠ 0) (hch : chainOk s ps) :
    class0Ranges (pwmRun (some r) 1 (⟨s, 1⟩ :: interleave ps)).1 =
      class1Ranges (pwmRun (some r) 1 (⟨s, 1⟩ :: interleave ps)).1 ∧
    class0Ranges (pwmRun (some r) 1 (⟨s, 1⟩ :: interleave ps)).1 = cycleRanges s ps ∧
    (∀ pr ∈ cycleRanges s ps, pr.1 < pr.2) ∧
    List.Chain' (fun a b => a.2 = b.1) (cycleRanges s ps) := by
  have hrun := pwmRun_start r hr s ps hch
  refine ⟨?_, ?_, cycleRanges_lt ps s hch, cycleRanges_chain ps s⟩
  · rw [hrun]
    rw [class0Ranges_expOuts, class1Ranges_expOuts]
  · rw [hrun]
    rw [class0Ranges_expOuts]

/-- C10 witness: two cycles, rises at 0, 2, 4, falls at 1, 3. -/
theorem pwm_cycle_annotation_ranges_witness :
    class0Ranges (pwmRun (some 1000) 1 (⟨0, 1⟩ :: interleave [(1, 2), (3, 4)])).1 =
      class1Ranges (pwmRun (some 1000) 1 (⟨0, 1⟩ :: interleave [(1, 2), (3, 4)])).1 ∧
    class0Ranges (pwmRun (some 1000) 1 (⟨0, 1⟩ :: interleave [(1, 2), (3, 4)])).1 =
      cycleRanges 0 [(1, 2), (3, 4)] ∧
    (∀ pr ∈ cycleRanges 0 [(1, 2), (3, 4)], pr.1 < pr.2) ∧
    List.Chain' (fun a b => a.2 = b.1) (cycleRanges 0 [(1, 2), (3, 4)]) :=
  pwm_cycle_annotation_ranges 1000 0 [(1, 2), (3, 4)] (by norm_num)
    ⟨by norm_num, by norm_num, by norm_num, by norm_num, trivial⟩

/-- C2 counterexample.  For a rendered frame (protocol 2 "NEC", address
0x10ef, command 0xb, repeat set), there are five rendering tiers but the
repeat and release flag vocabularies each have length three, not five. -/
theorem ir_flag_vocab_length_ne_tier_count :
    (irmpTxts ⟨2, "NEC", 4335, 11, true, false, 100, 200⟩).length = 5 ∧
    irRepTxts.length = 3 ∧ irRelTxts.length = 3 ∧
    irRepTxts.length ≠ (irmpTxts ⟨2, "NEC", 4335, 11, true, false, 100, 200⟩).length := by
  refine ⟨rfl, rfl, rfl, ?_⟩
  decide

/-- C2, amended: the repeat and release vocabularies have length three —
equal to each other, to the number of per-zoom flag lists and flag strings
built for every frame, and strictly greater than every zoom index the five
rendering tiers reference (`flg[0]`, `flg[1]`, `flg[1]`, `flg[2]`; the fifth
tier references none) — while the number of rendering tiers is five. -/
theorem ir_flag_vocab_consistent :
    irRepTxts.length = 3 ∧
    irRelTxts.length = 3 ∧
    (∀ rep rel : Bool, (irFlagLists rep rel).length = irRepTxts.length ∧
      (irFlagTxts rep rel).length = irRepTxts.length) ∧
    (∀ d : IrFrame, (irmpTxts d).length = 5) ∧
    (∀ z ∈ irTierFlagZooms, z < irRepTxts.length ∧ z < irRelTxts.length) := by
  refine ⟨rfl, rfl, ?_, ?_, ?_⟩
  · intro rep rel
    constructor
    · simp [irFlagLists]
    · simp [irFlagTxts, irFlagLists]
  · intro d
    rfl
  · decide

/-- C8 counterexample.  For a frame with repeat set and release clear, the
terminal (fifth) rendering tier shows the bare command ("C:b") and contains
no repeat word of any vocabulary tier at all, so not every rendering tier's
flag text carries the repeat word. -/
theorem ir_terminal_tier_lacks_flags :
    irRepTxts = ["repeat", "rep", "r"] ∧
    (irmpTxts ⟨2, "NEC", 4335, 11, true, false, 100, 200⟩).getD 4 "" = "C:b" ∧
    ¬ ("repeat".toList <:+: ("C:b").toList) ∧
    ¬ ("rep".toList <:+: ("C:b").toList) ∧
    ¬ ("r".toList <:+: ("C:b").toList) := by
  refine ⟨rfl, by decide, by decide, by decide, by decide⟩

/-- C8, amended: with repeat set and release clear, every per-zoom flag list
is exactly the singleton holding that zoom's repeat word (the repeat word at
index 0, the release word omitted), the joined flag strings equal the repeat
vocabulary, and of the five tiers the first four (referencing zooms 0, 1, 1,
2) render that word while the terminal tier renders the bare command with no
flag text. -/
theorem ir_repeat_flag_rendering :
    irFlagLists true false = [["repeat"], ["rep"], ["r"]] ∧
    irFlagTxts true false = irRepTxts ∧
    irmpTxts ⟨2, "NEC", 4335, 11, true, false, 100, 200⟩ =
      ["Protocol: NEC (2), Address 0x10ef, Command: 0x000b, Flags: repeat",
       "P: NEC (2), Addr: 0x10ef, Cmd: 0xb, Flg: rep",
       "P: 2 A: 0x10ef C: 0xb F: rep",
       "C:b A:10ef r",
       "C:b"] := by
  refine ⟨by decide, by decide, by decide⟩

/-- C7: with a known capture rate that is an exact integer multiple of the
library rate, `decode` runs with the integer rate factor
`samplerate / lib_rate` (so that `rate_factor * lib_rate = samplerate`
exactly); the library is fed exactly the decimated polarity-adjusted
subsequence of the raw stream — one sample every `rate_factor` raw samples,
via the skip wait — and every detected frame is emitted with engine
timestamps equal to the library-reported timestamps multiplied by that same
rate factor. -/
theorem irmp_rate_factor_decimation (σ : Type) (L : IrmpLib σ) (s0 : σ)
    (sr lr : Nat) (pol : Bool) (raw : Nat → Nat) (fuel : Nat)
    (hlr : 0 < lr) (hdvd : lr ∣ sr) (hsr : sr ≠ 0) :
    irmpDecode L s0 (some sr) lr pol raw fuel =
      Except.ok (irmpRun L (sr / lr) (if pol then 1 else 0) raw s0 0 fuel) ∧
    (sr / lr) * lr = sr ∧
    (irmpRun L (sr / lr) (if pol then 1 else 0) raw s0 0 fuel).1 =
      (decimatedBits raw (if pol then 1 else 0) (sr / lr) 0 fuel).foldl
        (fun t b => (L.addOneSample t b).1) s0 ∧
    ∀ o ∈ (irmpRun L (sr / lr) (if pol then 1 else 0) raw s0 0 fuel).2,
      ∃ d : IrFrame, o = Output.ann (d.start * (sr / lr)) (d.stop * (sr / lr)) 0
        (irmpTxts d) := by
  have hm : sr % lr = 0 := Nat.mod_eq_zero_of_dvd hdvd
  refine ⟨irmpDecode_ok L s0 sr lr pol raw fuel hsr hm, Nat.div_mul_cancel hdvd, ?_, ?_⟩
  · exact irmpRun_feeds L (sr / lr) (if pol then 1 else 0) raw fuel s0 0
  · exact irmpRun_frames_scaled L (sr / lr) (if pol then 1 else 0) raw fuel s0 0

/-- C7 witness: `pulseLib` at capture rate 40000 over library rate 20000
(rate factor 2) on the raw stream of alternating bits, for three loop
iterations. -/
theorem irmp_rate_factor_decimation_witness :
    irmpDecode pulseLib 0 (some 40000) 20000 false (fun i => i % 2) 3 =
      Except.ok (irmpRun pulseLib (40000 / 20000) (if False then 1 else 0)
        (fun i => i % 2) 0 0 3) ∧
    (40000 / 20000) * 20000 = 40000 ∧
    (irmpRun pulseLib (40000 / 20000) (if False then 1 else 0) (fun i => i % 2) 0 0 3).1 =
      (decimatedBits (fun i => i % 2) (if False then 1 else 0) (40000 / 20000) 0 3).foldl
        (fun t b => (pulseLib.addOneSample t b).1) 0 ∧
    ∀ o ∈ (irmpRun pulseLib (40000 / 20000) (if False then 1 else 0)
        (fun i => i % 2) 0 0 3).2,
      ∃ d : IrFrame, o = Output.ann (d.start * (40000 / 20000))
        (d.stop * (40000 / 20000)) 0 (irmpTxts d) :=
  irmp_rate_factor_decimation Nat pulseLib 0 40000 20000 false (fun i => i % 2) 3
    (by norm_num) (by norm_num) (by norm_num)
